import Mathlib

/-!
Verification development for the `scan_bot` trading agent (Rust).

Shallow embedding conventions:
* `u64` values are `Nat`; `i64` values are `Int` obtained from the little-endian
  byte reading by an explicit two's-complement conversion.
* Rust `f64` arithmetic (all of it here is division by powers of ten, absolute
  values, comparison against decimal literals, and `min`) is modelled as exact
  rational (`ℚ`) arithmetic.
* Byte buffers (`Vec<u8>`) are `List Nat`; the Rust slice expression
  `v[a..b]`, which panics when out of bounds, is modelled by an `Option`-valued
  slice, with `none` propagated to an explicit `panic` outcome.
* Rust `Pubkey::new_from_array(arr).to_string()` (base58 rendering, injective
  on 32-byte arrays) is modelled by the byte list itself.
* `serde_json::Value` is modelled by the inductive `Json` below.
-/

namespace ScanBot

/-- Minimal model of `serde_json::Value`. -/
inductive Json where
  | null : Json
  | bool : Bool → Json
  | num : Int → Json
  | str : String → Json
  | arr : List Json → Json
  | obj : List (String × Json) → Json

namespace Json

/-- `Value::get(key)`: field lookup, `None` when the value is not an object
or the key is absent. -/
def get : Json → String → Option Json
  | .obj kvs, k => kvs.lookup k
  | _, _ => none

/-- `Value::index` (`v["k"]`): like `get` but total, returning `Null` when the
value is not an object or the key is absent (serde_json's `Index for str`). -/
def index (j : Json) (k : String) : Json :=
  match j.get k with
  | some v => v
  | none => .null

/-- `Value::is_null`. -/
def isNull : Json → Bool
  | .null => true
  | _ => false

/-- `Value::as_str`. -/
def asStr : Json → Option String
  | .str s => some s
  | _ => none

/-- `Value::as_array`. -/
def asArr : Json → Option (List Json)
  | .arr l => some l
  | _ => none

end Json

/-! ## Event decoder (`src/sol_client/mod.rs`) -/

/-- `TradeEventData` (src/sol_client/mod.rs). Addresses (`mint`, `user`) are
kept as their 32-byte arrays (the Rust code renders them base58, injectively). -/
structure TradeEventData where
  mint : List Nat
  sol_amount : Nat
  token_amount : Nat
  is_buy : Bool
  user : List Nat
  timestamp : Int
  virtual_sol_reserves : Nat
  virtual_token_reserves : Nat
  real_sol_reserves : Nat
  real_token_reserves : Nat
deriving DecidableEq, Repr

/-- `TradeEvent` (src/sol_client/mod.rs). -/
structure TradeEvent where
  name : String
  data : TradeEventData
deriving DecidableEq, Repr

instance : Inhabited TradeEventData :=
  ⟨⟨[], 0, 0, false, [], 0, 0, 0, 0, 0⟩⟩

instance : Inhabited TradeEvent := ⟨⟨"", default⟩⟩

/-- Rust slice expression `v[a..b]` : `some` of the sub-list when the range is
in bounds, `none` (a panic in Rust) otherwise. -/
def rsSlice (v : List Nat) (a b : Nat) : Option (List Nat) :=
  if a ≤ b ∧ b ≤ v.length then some ((v.drop a).take (b - a)) else none

/-- Rust index expression `v[i]` for a byte vector: panics (here `none`) when
out of bounds. -/
def rsIndex (v : List Nat) (i : Nat) : Option Nat :=
  v.get? i

/-- `u64::from_le_bytes` on a byte list (least-significant byte first). -/
def leBytes : List Nat → Nat
  | [] => 0
  | b :: bs => b + 256 * leBytes bs

/-- `i64::from_le_bytes`: the unsigned little-endian reading, reinterpreted in
two's complement. -/
def toI64 (n : Nat) : Int :=
  if n < 2 ^ 63 then (n : Int) else (n : Int) - 2 ^ 64

/-- Outcome of the log-payload decoder: an error return, a Rust panic
(out-of-bounds slice), or a decoded event. -/
inductive ParseResult where
  | errNoPrefix : ParseResult
  | errBase64 : ParseResult
  | errLength (n : Nat) : ParseResult
  | panic : ParseResult
  | ok (e : TradeEvent) : ParseResult
deriving DecidableEq, Repr

def ParseResult.isErr : ParseResult → Bool
  | .errNoPrefix | .errBase64 | .errLength _ => true
  | _ => false

def ParseResult.isOk : ParseResult → Bool
  | .ok _ => true
  | _ => false

/-- The body of `parse_log_subscribe_data` after base64 decoding
(src/sol_client/mod.rs lines 85-110; the spec calls this stage
`decode_trade_event`): length check modulo 129, then field extraction at
fixed offsets.  Each Rust slice/index is `Option`-valued; an out-of-bounds
access is the `panic` outcome. -/
def decode_trade_event (decoded : List Nat) : ParseResult :=
  if decoded.length % 129 ≠ 0 then .errLength decoded.length
  else
    match rsSlice decoded 8 40, rsSlice decoded 40 48, rsSlice decoded 48 56,
          rsIndex decoded 56, rsSlice decoded 57 89, rsSlice decoded 89 97,
          rsSlice decoded 97 105, rsSlice decoded 105 113,
          rsSlice decoded 113 121, rsSlice decoded 121 129 with
    | some mintArr, some solB, some tokB, some buyB, some userArr, some tsB,
      some vsB, some vtB, some rsB, some rtB =>
        .ok ⟨"TradeEvent",
          { mint := mintArr
            sol_amount := leBytes solB
            token_amount := leBytes tokB
            is_buy := buyB != 0
            user := userArr
            timestamp := toI64 (leBytes tsB)
            virtual_sol_reserves := leBytes vsB
            virtual_token_reserves := leBytes vtB
            real_sol_reserves := leBytes rsB
            real_token_reserves := leBytes rtB }⟩
    | _, _, _, _, _, _, _, _, _, _ => .panic

/-- Input to `parse_log_subscribe_data`, at the granularity the function
inspects it: whether the string starts with the literal `"Program data: "`,
and the base64 decoding of the remainder (`none` = decode failure). -/
structure ProgramDataInput where
  prefixed : Bool
  decoded : Option (List Nat)
deriving DecidableEq, Repr

/-- `parse_log_subscribe_data` (src/sol_client/mod.rs lines 62-111):
`strip_prefix("Program data: ")` (error when absent), base64 decode (error on
failure), then `decode_trade_event`. -/
def parse_log_subscribe_data (inp : ProgramDataInput) : ParseResult :=
  if ¬ inp.prefixed then .errNoPrefix
  else
    match inp.decoded with
    | none => .errBase64
    | some d => decode_trade_event d

/-- Specification-side little-endian 64-bit reading of the eight bytes of a
buffer starting at a fixed offset, written positionally (byte at `off` is
least significant). -/
def leAt (d : List Nat) (off : Nat) : Nat :=
  d[off]?.getD 0 + 256 * d[off + 1]?.getD 0 + 65536 * d[off + 2]?.getD 0 +
    16777216 * d[off + 3]?.getD 0 + 4294967296 * d[off + 4]?.getD 0 +
    1099511627776 * d[off + 5]?.getD 0 + 281474976710656 * d[off + 6]?.getD 0 +
    72057594037927936 * d[off + 7]?.getD 0

/-- The `TradeEvent` described by the spec's fixed byte-offset table, phrased
independently of the decoder (positional bytes, explicit place values). -/
def specTradeEvent (d : List Nat) : TradeEvent :=
  ⟨"TradeEvent",
    { mint := (d.drop 8).take 32
      sol_amount := leAt d 40
      token_amount := leAt d 48
      is_buy := d[56]?.getD 0 != 0
      user := (d.drop 57).take 32
      timestamp := toI64 (leAt d 89)
      virtual_sol_reserves := leAt d 97
      virtual_token_reserves := leAt d 105
      real_sol_reserves := leAt d 113
      real_token_reserves := leAt d 121 }⟩

theorem list_take_eight (l : List Nat) (h : 8 ≤ l.length) :
    l.take 8 = [l[0]?.getD 0, l[1]?.getD 0, l[2]?.getD 0, l[3]?.getD 0,
      l[4]?.getD 0, l[5]?.getD 0, l[6]?.getD 0, l[7]?.getD 0] := by
  match l with
  | a0 :: a1 :: a2 :: a3 :: a4 :: a5 :: a6 :: a7 :: rest => simp [List.take]
  | [] | [_] | [_, _] | [_, _, _] | [_, _, _, _] | [_, _, _, _, _]
  | [_, _, _, _, _, _] | [_, _, _, _, _, _, _] => simp at h

theorem leBytes_slice (d : List Nat) (a : Nat) (h : a + 8 ≤ d.length) :
    leBytes ((d.drop a).take 8) = leAt d a := by
  have h8 : 8 ≤ (d.drop a).length := by
    rw [List.length_drop]; omega
  rw [list_take_eight _ h8]
  simp only [leBytes, leAt, List.getElem?_drop]
  ring_nf

theorem rsSlice_of_le (d : List Nat) (a b : Nat) (hab : a ≤ b)
    (hb : b ≤ d.length) : rsSlice d a b = some ((d.drop a).take (b - a)) := by
  simp [rsSlice, hab, hb]

theorem rsIndex_of_lt (d : List Nat) (i : Nat) (h : i < d.length) :
    rsIndex d i = some (d[i]?.getD 0) := by
  simp [rsIndex, List.get?_eq_getElem?, List.getElem?_eq_getElem h]

/-- Evaluation of the post-base64 decoder on any buffer long enough and of
length an exact multiple of 129: the fields come from the fixed offsets. -/
theorem decode_trade_event_ok (d : List Nat) (h129 : 129 ≤ d.length)
    (hmod : d.length % 129 = 0) : decode_trade_event d = .ok (specTradeEvent d) := by
  unfold decode_trade_event
  rw [if_neg (not_not_intro hmod)]
  rw [rsSlice_of_le d 8 40 (by omega) (by omega),
    rsSlice_of_le d 40 48 (by omega) (by omega),
    rsSlice_of_le d 48 56 (by omega) (by omega),
    rsIndex_of_lt d 56 (by omega),
    rsSlice_of_le d 57 89 (by omega) (by omega),
    rsSlice_of_le d 89 97 (by omega) (by omega),
    rsSlice_of_le d 97 105 (by omega) (by omega),
    rsSlice_of_le d 105 113 (by omega) (by omega),
    rsSlice_of_le d 113 121 (by omega) (by omega),
    rsSlice_of_le d 121 129 (by omega) (by omega)]
  show ParseResult.ok _ = _
  rw [specTradeEvent]
  refine congrArg _ (congrArg _ ?_)
  refine TradeEventData.mk.injEq .. ▸ ?_
  exact ⟨rfl, leBytes_slice d 40 (by omega), leBytes_slice d 48 (by omega),
    rfl, rfl, congrArg _ (leBytes_slice d 89 (by omega)),
    leBytes_slice d 97 (by omega), leBytes_slice d 105 (by omega),
    leBytes_slice d 113 (by omega), leBytes_slice d 121 (by omega)⟩

theorem specTradeEvent_take (d : List Nat) :
    specTradeEvent (d.take 129) = specTradeEvent d := by
  unfold specTradeEvent leAt
  simp [List.drop_take, List.take_take, List.getElem?_take]

theorem decode_isErr_iff (d : List Nat) :
    (decode_trade_event d).isErr = true ↔ d.length % 129 ≠ 0 := by
  by_cases h : d.length % 129 = 0
  · rcases Nat.eq_zero_or_pos d.length with h0 | hpos
    · have he : d = [] := List.length_eq_zero.mp h0
      subst he
      simp [decode_trade_event, rsSlice, ParseResult.isErr]
    · have h129 : 129 ≤ d.length :=
        Nat.le_of_dvd hpos (Nat.dvd_of_mod_eq_zero h)
      rw [decode_trade_event_ok d h129 h]
      simp [ParseResult.isErr, h]
  · unfold decode_trade_event
    rw [if_pos h]
    simp [ParseResult.isErr, h]

/-- C3: on any log payload that carries the `"Program data: "` prefix and
whose remainder base64-decodes to a byte buffer of length a positive multiple
of 129, `parse_log_subscribe_data` returns the `TradeEvent` whose fields are
read at the spec's fixed byte offsets (mint 8..40, sol_amount LE u64 40..48,
token_amount 48..56, is_buy = byte 56 ≠ 0, user 57..89, timestamp LE i64
89..97, and the four reserve fields at 97..105, 105..113, 113..121, 121..129);
only the first 129-byte record matters, and equal inputs give equal results. -/
theorem parse_log_fixed_offsets (inp : ProgramDataInput) (d : List Nat)
    (k : Nat) (hpre : inp.prefixed = true) (hdec : inp.decoded = some d)
    (hlen : d.length = 129 * k) (hk : 0 < k) :
    parse_log_subscribe_data inp = .ok (specTradeEvent d) ∧
    parse_log_subscribe_data inp =
      parse_log_subscribe_data ⟨true, some (d.take 129)⟩ ∧
    ∀ inp₂ : ProgramDataInput, inp₂ = inp →
      parse_log_subscribe_data inp₂ = parse_log_subscribe_data inp := by
  have h129 : 129 ≤ d.length := by omega
  have hmod : d.length % 129 = 0 := by omega
  have hmain : parse_log_subscribe_data inp = .ok (specTradeEvent d) := by
    simp [parse_log_subscribe_data, hpre, hdec,
      decode_trade_event_ok d h129 hmod]
  refine ⟨hmain, ?_, fun inp₂ h2 => by rw [h2]⟩
  have hlen' : (d.take 129).length = 129 := by
    rw [List.length_take]; omega
  have h2 : parse_log_subscribe_data ⟨true, some (d.take 129)⟩ =
      .ok (specTradeEvent (d.take 129)) := by
    simp [parse_log_subscribe_data,
      decode_trade_event_ok (d.take 129) (by omega) (by rw [hlen'])]
  rw [hmain, h2, specTradeEvent_take]

theorem parse_log_fixed_offsets_witness :
    parse_log_subscribe_data ⟨true, some (List.replicate 129 1)⟩ =
      .ok (specTradeEvent (List.replicate 129 1)) :=
  (parse_log_fixed_offsets ⟨true, some (List.replicate 129 1)⟩
    (List.replicate 129 1) 1 rfl rfl (by simp) (by norm_num)).1

/-- C4: the decoder is *not* total on all buffers whose length is a multiple
of 129 — the empty buffer (length 0, a multiple of 129) passes the length
check and then panics on the out-of-bounds slice `decoded[8..40]`.  This
theorem evaluates the decoder at that failing input. -/
theorem decode_trade_event_panics_on_empty :
    ([] : List Nat).length % 129 = 0 ∧ decode_trade_event [] = .panic := by
  exact ⟨rfl, by decide⟩

/-- C8 counterexample: the input with the prefix whose payload decodes to the
empty buffer satisfies none of the three error conditions, yet the call does
not return `Ok` — it panics. -/
theorem parse_log_empty_payload_counterexample :
    parse_log_subscribe_data ⟨true, some []⟩ = .panic ∧
    (parse_log_subscribe_data ⟨true, some []⟩).isErr = false ∧
    (parse_log_subscribe_data ⟨true, some []⟩).isOk = false := by
  exact ⟨by decide, by decide, by decide⟩

/-- C8 (amended): `parse_log_subscribe_data` returns an error exactly when the
prefix is absent, base64 decoding fails, or the decoded length is not a
multiple of 129; every other input with a *nonzero* decoded length returns
`Ok` (the zero-length decode instead panics). -/
theorem parse_log_error_conditions (inp : ProgramDataInput) :
    ((parse_log_subscribe_data inp).isErr = true ↔
      inp.prefixed = false ∨ inp.decoded = none ∨
        ∃ d, inp.decoded = some d ∧ d.length % 129 ≠ 0) ∧
    (∀ d, inp.prefixed = true → inp.decoded = some d →
      d.length % 129 = 0 → 0 < d.length →
      ∃ e, parse_log_subscribe_data inp = .ok e) := by
  refine ⟨?_, ?_⟩
  · obtain ⟨hp, hd⟩ := inp
    cases hp
    · simp [parse_log_subscribe_data, ParseResult.isErr]
    · cases hd with
      | none => simp [parse_log_subscribe_data, ParseResult.isErr]
      | some d => simp [parse_log_subscribe_data, decode_isErr_iff]
  · rintro d hp' hd' hmod hpos
    have h129 : 129 ≤ d.length :=
      Nat.le_of_dvd hpos (Nat.dvd_of_mod_eq_zero hmod)
    exact ⟨specTradeEvent d, by
      simp [parse_log_subscribe_data, hp', hd',
        decode_trade_event_ok d h129 hmod]⟩

theorem parse_log_error_conditions_witness :
    (parse_log_subscribe_data ⟨false, none⟩).isErr = true :=
  (parse_log_error_conditions ⟨false, none⟩).1.mpr (Or.inl rfl)

/-! ## Detection engine (`src/strategies/scan_dealer.rs`)

The `statistics_map` (`HashMap<i64, HashMap<String, Vec<TradeEvent>>>`) is
modelled as an association list keyed by timestamp, each entry holding an
association list keyed by mint.  `tick` models one iteration of the sweep
loop in `Statistics::start_monitor` at a clock reading `now` (the Rust code
re-reads the clock per bucket within one iteration; a single reading stands
for any one of those monotone values).  Alarms are recorded as
`(timestamp, mint, baseline-SOL)` triples — the timestamp identifies the
bucket whose evaluation emitted the `warn!` line. -/

/-- `HashMap` lookup on the association-list model. -/
def alookup {α β : Type} [DecidableEq α] : List (α × β) → α → Option β
  | [], _ => none
  | (k, v) :: rest, a => if a = k then some v else alookup rest a

/-- `HashMap::entry(a).and_modify(f).or_insert(dflt)` on the model. -/
def aupdate {α β : Type} [DecidableEq α] (f : β → β) (dflt : β) :
    List (α × β) → α → List (α × β)
  | [], a => [(a, dflt)]
  | (k, v) :: rest, a =>
    if a = k then (k, f v) :: rest else (k, v) :: aupdate f dflt rest a

/-- mint (byte-array key) ↦ event sequence for one timestamp bucket. -/
abbrev CoinMap := List (List Nat × List TradeEvent)

/-- timestamp ↦ per-mint buckets: the `statistics_map`. -/
abbrev StatisticsMap := List (Int × CoinMap)

/-- Baseline SOL amount of a bucket: `events[0].data.sol_amount as f64 / 1e9`
(the `first_sol` of the sweep loop). -/
def bucket_baseline (events : List TradeEvent) : ℚ :=
  ((events.getD 0 default).data.sol_amount : ℚ) / 1000000000

/-- The per-bucket alarm rule inlined in `Statistics::start_monitor`
(src/strategies/scan_dealer.rs lines 84-102): need at least 3 events; event 0
sets `first_sol`; events 1 and 2 must each stay within 15% of it, else no
alarm. -/
def will_alarm (events : List TradeEvent) : Bool :=
  if events.length < 3 then false
  else
    let first_sol := bucket_baseline events
    (List.range' 1 2).all fun i =>
      let sol_amount : ℚ :=
        ((events.getD i default).data.sol_amount : ℚ) / 1000000000
      !(decide (|sol_amount - first_sol| > first_sol * 0.15))

/-- One iteration of the sweep loop in `Statistics::start_monitor`
(src/strategies/scan_dealer.rs lines 64-115): buckets younger than 5 seconds
are skipped; every other bucket is evaluated (alarm per qualifying mint) and
its timestamp is pushed onto `remove_list`, then all listed timestamps are
removed from the map. -/
def tick (now : Int) (st : StatisticsMap) :
    StatisticsMap × List (Int × List Nat × ℚ) :=
  let alarms := st.flatMap fun p =>
    if now - p.1 < 5 then []
    else p.2.filterMap fun c =>
      if will_alarm c.2 then some (p.1, c.1, bucket_baseline c.2) else none
  (st.filter fun p => decide (now - p.1 < 5), alarms)

/-- `Statistics::add_event` (src/strategies/scan_dealer.rs lines 119-153):
buy events under 0.5 SOL are discarded; otherwise the event is appended to
`statistics_map[timestamp][mint]` via the nested `entry/and_modify/or_insert`
chain. -/
def add_event (st : StatisticsMap) (event : TradeEvent) : StatisticsMap :=
  let sol_amount : ℚ := (event.data.sol_amount : ℚ) / 1000000000
  if event.data.is_buy && decide (sol_amount < 0.5) then st
  else
    aupdate
      (fun coins =>
        aupdate (fun events => events ++ [event]) [event] coins
          event.data.mint)
      [(event.data.mint, [event])] st event.data.timestamp

/-- Interleavings of the detection engine's two mutations of the
`statistics_map`: ingestion (`add_event`) and sweep iterations (`tick`). -/
inductive SweepOp where
  | tick (now : Int) : SweepOp
  | add (e : TradeEvent) : SweepOp

/-- Run a sequence of sweep/ingestion operations, accumulating all alarms. -/
def sweep_run : StatisticsMap → List SweepOp →
    StatisticsMap × List (Int × List Nat × ℚ)
  | st, [] => (st, [])
  | st, .tick now :: rest =>
    let s := tick now st
    let r := sweep_run s.1 rest
    (r.1, s.2 ++ r.2)
  | st, .add e :: rest => sweep_run (add_event st e) rest

/-- A synthetic trade event with the given lamport amount (sell side, so the
ingestion floor does not interfere). -/
def sampleEvent (n : Nat) : TradeEvent :=
  ⟨"TradeEvent", ⟨[1], n, 0, false, [2], 0, 0, 0, 0, 0⟩⟩

/-- A synthetic 1-lamport buy event (under the 0.5 SOL floor). -/
def smallBuyEvent : TradeEvent :=
  ⟨"TradeEvent", ⟨[1], 1, 0, true, [2], 0, 0, 0, 0, 0⟩⟩

theorem alookup_aupdate_self {α β : Type} [DecidableEq α]
    (l : List (α × β)) (a : α) (f : β → β) (d : β) :
    alookup (aupdate f d l a) a = some ((alookup l a).elim d f) := by
  induction l with
  | nil => simp [alookup, aupdate]
  | cons p rest ih =>
    obtain ⟨k, v⟩ := p
    by_cases h : a = k
    · simp [alookup, aupdate, h]
    · simp [alookup, aupdate, h, ih]

theorem alookup_aupdate_other {α β : Type} [DecidableEq α]
    (l : List (α × β)) (a b : α) (f : β → β) (d : β) (h : b ≠ a) :
    alookup (aupdate f d l a) b = alookup l b := by
  induction l with
  | nil => simp [alookup, aupdate, h]
  | cons p rest ih =>
    obtain ⟨k, v⟩ := p
    by_cases hk : a = k
    · subst hk
      simp [alookup, aupdate, h]
    · by_cases hb : b = k <;> simp [alookup, aupdate, hk, hb, ih]

theorem alookup_filter_pos {α β : Type} [DecidableEq α]
    (p : α → Bool) (l : List (α × β)) (a : α) (h : p a = true) :
    alookup (l.filter fun x => p x.1) a = alookup l a := by
  induction l with
  | nil => simp
  | cons q rest ih =>
    obtain ⟨k, v⟩ := q
    by_cases hk : a = k
    · subst hk
      simp [List.filter, h, alookup]
    · by_cases hp : p k <;> simp [List.filter, hp, alookup, hk, ih]

theorem alookup_filter_neg {α β : Type} [DecidableEq α]
    (p : α → Bool) (l : List (α × β)) (a : α) (h : p a = false) :
    alookup (l.filter fun x => p x.1) a = none := by
  induction l with
  | nil => simp [alookup]
  | cons q rest ih =>
    obtain ⟨k, v⟩ := q
    by_cases hk : a = k
    · subst hk
      simp [List.filter, h, ih]
    · by_cases hp : p k <;> simp [List.filter, hp, alookup, hk, ih]

theorem alookup_mem {α β : Type} [DecidableEq α]
    {l : List (α × β)} {a : α} {b : β} (h : alookup l a = some b) :
    (a, b) ∈ l := by
  induction l with
  | nil => simp [alookup] at h
  | cons q rest ih =>
    obtain ⟨k, v⟩ := q
    by_cases hk : a = k
    · subst hk
      simp [alookup] at h
      simp [h]
    · simp [alookup, hk] at h
      simp [ih h]

theorem alookup_eq_none_of_keys {α β : Type} [DecidableEq α]
    {l : List (α × β)} {a : α} (h : ∀ q ∈ l, q.1 ≠ a) :
    alookup l a = none := by
  induction l with
  | nil => simp [alookup]
  | cons q rest ih =>
    obtain ⟨k, v⟩ := q
    have hk : k ≠ a := h (k, v) (by simp)
    have hak : ¬ a = k := fun hh => hk hh.symm
    simp [alookup, hak, ih fun q hq => h q (by simp [hq])]

/-- The `f64` comparison `sol_amount < 0.5` of `add_event`, in lamports. -/
theorem sol_floor_iff (n : Nat) :
    ((n : ℚ) / 1000000000 < 0.5) ↔ n < 500000000 := by
  rw [div_lt_iff₀ (by norm_num : (0 : ℚ) < 1000000000)]
  norm_num

/-- C2: the bucket alarm rule fires exactly when the bucket has at least 3
events and the SOL amounts of events 1 and 2 each differ from event 0's
baseline by at most 15% of the baseline; events beyond the first three are
irrelevant; amounts {1.0, 1.1, 0.95} SOL alarm and {1.0, 1.3, 1.0} do not. -/
theorem will_alarm_rule (events : List TradeEvent) :
    (will_alarm events = true ↔
      3 ≤ events.length ∧
      |((events.getD 1 default).data.sol_amount : ℚ) / 1000000000 -
          bucket_baseline events| ≤ 0.15 * bucket_baseline events ∧
      |((events.getD 2 default).data.sol_amount : ℚ) / 1000000000 -
          bucket_baseline events| ≤ 0.15 * bucket_baseline events) ∧
    will_alarm events = will_alarm (events.take 3) ∧
    will_alarm [sampleEvent 1000000000, sampleEvent 1100000000,
      sampleEvent 950000000] = true ∧
    will_alarm [sampleEvent 1000000000, sampleEvent 1300000000,
      sampleEvent 1000000000] = false := by
  refine ⟨?_, ?_, ?_, ?_⟩
  case refine_3 =>
    simp only [will_alarm, bucket_baseline, sampleEvent, List.range']
    norm_num [abs_le]
  case refine_4 =>
    simp only [will_alarm, bucket_baseline, sampleEvent, List.range']
    norm_num [abs_le, lt_abs]
  · by_cases h : events.length < 3
    · simp only [will_alarm, h, if_true]
      constructor
      · intro hf
        exact absurd hf (by simp)
      · rintro ⟨h3, -⟩
        omega
    · simp only [will_alarm, h, if_false, List.range']
      simp [List.all_cons, not_lt, Nat.le_of_not_lt h, mul_comm]
  · by_cases h : events.length < 3
    · have ht : (events.take 3).length < 3 := by
        rw [List.length_take]; omega
      simp [will_alarm, h, ht]
    · have ht : ¬ (events.take 3).length < 3 := by
        rw [List.length_take]; omega
      have h0 : ∀ i, i < 3 →
          (events.take 3).getD i default = events.getD i default := by
        intro i hi
        simp [List.getD_eq_getElem?_getD, List.getElem?_take, hi]
      simp [will_alarm, bucket_baseline, h, ht, List.range',
        h0 0 (by norm_num), h0 1 (by norm_num), h0 2 (by norm_num)]

/-- Lookup of a mint's event sequence under a timestamp bucket. -/
def lookup2 (st : StatisticsMap) (ts : Int) (mint : List Nat) :
    Option (List TradeEvent) :=
  (alookup st ts).bind fun coins => alookup coins mint

/-- C10: `add_event` applies the 0.5 SOL floor only to buy events — a buy
under 500,000,000 lamports leaves the window untouched, while any other event
(including arbitrarily small sells) is appended to
`window[timestamp][mint]`, leaving every other bucket and event sequence
unchanged. -/
theorem add_event_floor (st : StatisticsMap) (e : TradeEvent) :
    (e.data.is_buy = true → e.data.sol_amount < 500000000 →
      add_event st e = st) ∧
    ((e.data.is_buy = false ∨ 500000000 ≤ e.data.sol_amount) →
      lookup2 (add_event st e) e.data.timestamp e.data.mint =
        some ((lookup2 st e.data.timestamp e.data.mint).getD [] ++ [e]) ∧
      (∀ ts, ts ≠ e.data.timestamp →
        alookup (add_event st e) ts = alookup st ts) ∧
      (∀ mint, mint ≠ e.data.mint →
        lookup2 (add_event st e) e.data.timestamp mint =
          lookup2 st e.data.timestamp mint)) := by
  constructor
  · intro hb hn
    have hsol : ((e.data.sol_amount : ℚ) / 1000000000 < 0.5) :=
      (sol_floor_iff _).mpr hn
    simp [add_event, hb, hsol]
  · intro hcase
    have hcond : (e.data.is_buy &&
        decide ((e.data.sol_amount : ℚ) / 1000000000 < 0.5)) = false := by
      rcases hcase with hb | hn
      · simp [hb]
      · simp [sol_floor_iff, Nat.not_lt.mpr hn]
    have hadd : add_event st e =
        aupdate
          (fun coins =>
            aupdate (fun events => events ++ [e]) [e] coins e.data.mint)
          [(e.data.mint, [e])] st e.data.timestamp := by
      simp [add_event, hcond]
    refine ⟨?_, ?_, ?_⟩
    · rw [lookup2, hadd, alookup_aupdate_self]
      cases hst : alookup st e.data.timestamp with
      | none => simp [lookup2, hst, alookup]
      | some coins =>
        simp only [lookup2, hst, Option.elim, Option.some_bind]
        rw [alookup_aupdate_self]
        cases hc : alookup coins e.data.mint <;> simp [hc]
    · intro ts hts
      rw [hadd, alookup_aupdate_other _ _ _ _ _ hts]
    · intro mint hm
      rw [lookup2, lookup2, hadd, alookup_aupdate_self]
      cases hst : alookup st e.data.timestamp with
      | none => simp [alookup, fun h => hm h]
      | some coins =>
        simp only [Option.elim, Option.some_bind]
        rw [alookup_aupdate_other _ _ _ _ _ hm]

theorem add_event_floor_witness : add_event [] smallBuyEvent = [] :=
  (add_event_floor [] smallBuyEvent).1 rfl (by norm_num [smallBuyEvent])

theorem tick_fst (now : Int) (st : StatisticsMap) :
    (tick now st).1 = st.filter fun p => decide (now - p.1 < 5) := rfl

theorem not_mem_of_alookup_none {α β : Type} [DecidableEq α]
    {l : List (α × β)} {a : α} (h : alookup l a = none) :
    ∀ b, (a, b) ∉ l := by
  induction l with
  | nil => simp
  | cons q rest ih =>
    obtain ⟨k, v⟩ := q
    by_cases hk : a = k
    · simp [alookup, hk] at h
    · simp only [alookup, hk, if_false] at h
      intro b hb
      rcases List.mem_cons.mp hb with hb | hb
      · exact hk (congrArg Prod.fst hb)
      · exact ih h b hb

theorem tick_alarm_key_mem {now : Int} {st : StatisticsMap} {ts : Int}
    {coin : List Nat} {q : ℚ} (h : (ts, coin, q) ∈ (tick now st).2) :
    ∃ coins, (ts, coins) ∈ st := by
  simp only [tick, List.mem_flatMap] at h
  obtain ⟨p, hp, hmem⟩ := h
  by_cases hage : now - p.1 < 5
  · simp [hage] at hmem
  · simp only [hage, if_false, List.mem_filterMap] at hmem
    obtain ⟨c, -, hc⟩ := hmem
    by_cases hw : will_alarm c.2 <;> simp [hw] at hc
    exact ⟨p.2, by rw [← hc.1]; exact hp⟩

/-- C7 (amended): a sweep tick leaves every bucket younger than 5 seconds
unchanged; it removes a bucket only when it observed its age to be at least
5 seconds; every removed bucket has the alarm rule evaluated on its observed
contents in the same tick, before removal; and once a timestamp is absent
from the window, no later tick can alarm or resurrect it as long as no event
bearing that timestamp is ingested again. -/
theorem sweep_evict_properties (now : Int) (st : StatisticsMap) :
    (∀ ts, now - ts < 5 → alookup (tick now st).1 ts = alookup st ts) ∧
    (∀ ts, alookup (tick now st).1 ts = none → alookup st ts ≠ none →
      5 ≤ now - ts) ∧
    (∀ ts coins, alookup st ts = some coins → 5 ≤ now - ts →
      alookup (tick now st).1 ts = none ∧
      ∀ coin evs, (coin, evs) ∈ coins → will_alarm evs = true →
        (ts, coin, bucket_baseline evs) ∈ (tick now st).2) ∧
    (∀ ops (st₂ : StatisticsMap) ts, alookup st₂ ts = none →
      (∀ e, SweepOp.add e ∈ ops → e.data.timestamp ≠ ts) →
      alookup (sweep_run st₂ ops).1 ts = none ∧
      ∀ coin q, (ts, coin, q) ∉ (sweep_run st₂ ops).2) := by
  refine ⟨?_, ?_, ?_, ?_⟩
  · intro ts hage
    exact alookup_filter_pos (fun k => decide (now - k < 5)) st ts
      (by simpa using hage)
  · intro ts hnone hsome
    by_contra hlt
    rw [tick_fst, alookup_filter_pos (fun k => decide (now - k < 5)) st ts
      (by simp; omega)] at hnone
    exact hsome hnone
  · intro ts coins hlook hage
    refine ⟨alookup_filter_neg (fun k => decide (now - k < 5)) st ts
      (by simp; omega), ?_⟩
    intro coin evs hmem hwill
    simp only [tick, List.mem_flatMap]
    refine ⟨(ts, coins), alookup_mem hlook, ?_⟩
    have : ¬ now - ts < 5 := by omega
    simp only [this, if_false, List.mem_filterMap]
    exact ⟨(coin, evs), hmem, by simp [hwill]⟩
  · intro ops
    induction ops with
    | nil =>
      intro st₂ ts hnone _
      exact ⟨hnone, by simp [sweep_run]⟩
    | cons op rest ih =>
      intro st₂ ts hnone hadd
      cases op with
      | tick now' =>
        have hnone' : alookup (tick now' st₂).1 ts = none := by
          rw [tick_fst]
          by_cases hage : now' - ts < 5
          · rw [alookup_filter_pos (fun k => decide (now' - k < 5)) st₂ ts
              (by simpa using hage)]
            exact hnone
          · exact alookup_filter_neg (fun k => decide (now' - k < 5)) st₂ ts
              (by simp; omega)
        obtain ⟨h1, h2⟩ := ih (tick now' st₂).1 ts hnone'
          (fun e he => hadd e (by simp [he]))
        refine ⟨by simpa [sweep_run] using h1, ?_⟩
        intro coin q hq
        simp only [sweep_run, List.mem_append] at hq
        rcases hq with hq | hq
        · obtain ⟨coins, hmem⟩ := tick_alarm_key_mem hq
          exact not_mem_of_alookup_none hnone coins hmem
        · exact h2 coin q hq
      | add e =>
        have hts : e.data.timestamp ≠ ts := hadd e (by simp)
        have hnone' : alookup (add_event st₂ e) ts = none := by
          by_cases hcond : (e.data.is_buy &&
              decide ((e.data.sol_amount : ℚ) / 1000000000 < 0.5)) = true
          · simpa [add_event, hcond] using hnone
          · have hcf : (e.data.is_buy &&
                decide ((e.data.sol_amount : ℚ) / 1000000000 < 0.5)) = false := by
              simpa using hcond
            rw [show add_event st₂ e = aupdate
                (fun coins =>
                  aupdate (fun events => events ++ [e]) [e] coins e.data.mint)
                [(e.data.mint, [e])] st₂ e.data.timestamp from by
                  simp [add_event, hcf]]
            rw [alookup_aupdate_other _ _ _ _ _ (Ne.symm hts)]
            exact hnone
        obtain ⟨h1, h2⟩ := ih (add_event st₂ e) ts hnone'
          (fun e' he' => hadd e' (by simp [he']))
        exact ⟨by simpa [sweep_run] using h1, by simpa [sweep_run] using h2⟩

theorem sweep_evict_properties_witness :
    alookup (tick 0 [((3 : Int), ([] : CoinMap))]).1 3 =
      alookup [((3 : Int), ([] : CoinMap))] 3 :=
  (sweep_evict_properties 0 [(3, [])]).1 3 (by norm_num)

/-- C7 counterexample: the timestamp-0 bucket is evaluated, alarms, and is
removed by the first sweep tick; after three more events bearing the same
timestamp are ingested, a later tick alarms for the very same timestamp
bucket again — so a removed bucket can re-trigger (and be removed twice)
when events with its timestamp arrive after the eviction. -/
theorem sweep_retrigger_counterexample :
    (sweep_run [] [.add (sampleEvent 1000000000),
      .add (sampleEvent 1000000000), .add (sampleEvent 1000000000),
      .tick 10, .add (sampleEvent 1000000000), .add (sampleEvent 1000000000),
      .add (sampleEvent 1000000000), .tick 20]).2 =
      [((0 : Int), [1], (1 : ℚ)), (0, [1], 1)] := by
  have h1 : add_event [] (sampleEvent 1000000000) =
      [(0, [([1], [sampleEvent 1000000000])])] := by
    norm_num [add_event, sampleEvent, aupdate]
  have h2 : add_event [(0, [([1], [sampleEvent 1000000000])])]
      (sampleEvent 1000000000) =
      [(0, [([1], [sampleEvent 1000000000, sampleEvent 1000000000])])] := by
    norm_num [add_event, sampleEvent, aupdate]
  have h3 : add_event
      [(0, [([1], [sampleEvent 1000000000, sampleEvent 1000000000])])]
      (sampleEvent 1000000000) =
      [(0, [([1], [sampleEvent 1000000000, sampleEvent 1000000000,
        sampleEvent 1000000000])])] := by
    norm_num [add_event, sampleEvent, aupdate]
  have hw : will_alarm [sampleEvent 1000000000, sampleEvent 1000000000,
      sampleEvent 1000000000] = true := by
    simp only [will_alarm, bucket_baseline, sampleEvent, List.range']
    norm_num [abs_le]
  have hb : bucket_baseline [sampleEvent 1000000000, sampleEvent 1000000000,
      sampleEvent 1000000000] = 1 := by
    norm_num [bucket_baseline, sampleEvent]
  have ht : ∀ now : Int, 5 ≤ now →
      tick now [(0, [([1], [sampleEvent 1000000000, sampleEvent 1000000000,
        sampleEvent 1000000000])])] = ([], [(0, [1], 1)]) := by
    intro now hnow
    have hc : ¬ (now - 0 < 5) := by omega
    simp [tick, hw, hb, hc]
    omega
  simp only [sweep_run, h1, h2, h3, ht 10 (by norm_num), ht 20 (by norm_num)]
  simp

/-! ## Bundle confirmation state machine (`src/jito/bundle_status.rs`)

The two polling loops are embedded over pure response streams
(`Nat → Json`, indexed by attempt number; the `?` on the transport call is
not exercised: the claims quantify over status responses, so every poll is
assumed to yield a response).  Each loop iteration appends observable events
to a trace: `poll1`/`poll2` for the status queries, `sleep` for the
2-second delays, `enter2` for the transition into
`check_final_bundle_status`, and `printUrl` for the transaction id surfaced
on finalized success. -/

/-- `BundleStatus` (src/jito/bundle_status.rs lines 8-13). -/
structure BundleStatus where
  confirmation_status : Option String
  err : Option Json
  transactions : Option (List String)

/-- Errors surfaced by the confirmation state machine. -/
inductive BundleErr where
  | parseFailed : BundleErr
  | txFailed : BundleErr
  | confirmationTimeout : BundleErr
deriving DecidableEq, Repr

/-- Observable events of one `check_bundle_status` call. -/
inductive BundleEv where
  | poll1 (attempt : Nat) : BundleEv
  | sleep (secs : Nat) : BundleEv
  | enter2 : BundleEv
  | poll2 (attempt : Nat) : BundleEv
  | printUrl (txid : Option String) : BundleEv
deriving DecidableEq, Repr

/-- The nested probing of a Phase-1 in-flight status response
(src/jito/bundle_status.rs lines 30-35): `result` → `value` → as-array →
element 0 → `status` → as-str.  Every shape other than the string
`"Landed"` makes the loop wait and retry. -/
def extract_status (resp : Json) : Option String :=
  (((((resp.get "result").bind fun result => result.get "value").bind
    fun value => value.asArr).bind fun statuses => statuses.head?).bind
    fun bundle_status => bundle_status.get "status").bind
    fun status => status.asStr

/-- `get_bundle_status` (src/jito/bundle_status.rs lines 124-146). -/
def get_bundle_status (status_response : Json) : Except String BundleStatus :=
  match (((status_response.get "result").bind fun result =>
      result.get "value").bind fun value => value.asArr).bind
      fun statuses => statuses.head? with
  | none => .error "Failed to parse bundle status"
  | some bundle_status =>
    .ok
      { confirmation_status :=
          (bundle_status.get "confirmation_status").bind fun s => s.asStr
        err := bundle_status.get "err"
        transactions :=
          ((bundle_status.get "transactions").bind fun t => t.asArr).map
            fun arr => arr.filterMap fun v => v.asStr }

/-- `check_transaction_error` (src/jito/bundle_status.rs lines 148-160):
fails only when the `err` field is present and its `"Ok"` member is
non-null. -/
def check_transaction_error (bs : BundleStatus) : Except BundleErr Unit :=
  match bs.err with
  | some err => if (err.index "Ok").isNull then .ok () else .error .txFailed
  | none => .ok ()

/-- The transaction id `print_transaction_url` surfaces
(src/jito/bundle_status.rs lines 162-172): the first element of the
`transactions` list, when present. -/
def first_tx_id (bs : BundleStatus) : Option String :=
  bs.transactions.bind List.head?

/-- The Phase-2 loop body of `check_final_bundle_status`
(src/jito/bundle_status.rs lines 78-115) over the remaining attempt numbers:
a parse failure propagates; `confirmed` checks the transaction error and
keeps polling; `finalized` checks the transaction error, surfaces the first
transaction id, and succeeds; anything else keeps polling; an exhausted list
is the timeout error (lines 117-120). -/
def check_final_loop (fresps : Nat → Json) :
    List Nat → Except BundleErr Unit × List BundleEv
  | [] => (.error .confirmationTimeout, [])
  | a :: rest =>
    match get_bundle_status (fresps a) with
    | .error _ => (.error .parseFailed, [.poll2 a])
    | .ok bs =>
      match bs.confirmation_status with
      | some s =>
        if s = "confirmed" then
          match check_transaction_error bs with
          | .error e => (.error e, [.poll2 a])
          | .ok _ =>
            ((check_final_loop fresps rest).1,
              .poll2 a :: (if rest.isEmpty then [] else [.sleep 2]) ++
                (check_final_loop fresps rest).2)
        else if s = "finalized" then
          match check_transaction_error bs with
          | .error e => (.error e, [.poll2 a])
          | .ok _ => (.ok (), [.poll2 a, .printUrl (first_tx_id bs)])
        else
          ((check_final_loop fresps rest).1,
            .poll2 a :: (if rest.isEmpty then [] else [.sleep 2]) ++
              (check_final_loop fresps rest).2)
      | none =>
        ((check_final_loop fresps rest).1,
          .poll2 a :: (if rest.isEmpty then [] else [.sleep 2]) ++
            (check_final_loop fresps rest).2)

/-- `check_final_bundle_status`: Phase 2 with `max_retries = 10`. -/
def check_final_bundle_status (fresps : Nat → Json) :
    Except BundleErr Unit × List BundleEv :=
  check_final_loop fresps (List.range' 1 10)

/-- The Phase-1 loop body of `check_bundle_status`
(src/jito/bundle_status.rs lines 20-71): only a response whose nested status
string is `"Landed"` hands over to `check_final_bundle_status`; every other
response shape waits and retries; an exhausted list returns `Ok(())`
(line 72). -/
def check_bundle_loop (resps fresps : Nat → Json) :
    List Nat → Except BundleErr Unit × List BundleEv
  | [] => (.ok (), [])
  | a :: rest =>
    if extract_status (resps a) = some "Landed" then
      ((check_final_bundle_status fresps).1,
        .poll1 a :: .enter2 :: (check_final_bundle_status fresps).2)
    else
      ((check_bundle_loop resps fresps rest).1,
        .poll1 a :: (if rest.isEmpty then [] else [.sleep 2]) ++
          (check_bundle_loop resps fresps rest).2)

/-- `check_bundle_status`: Phase 1 with `max_retries = 10`. -/
def check_bundle_status (resps fresps : Nat → Json) :
    Except BundleErr Unit × List BundleEv :=
  check_bundle_loop resps fresps (List.range' 1 10)

/-- A Phase-2 response on which the loop keeps polling: it parses, and its
confirmation status is neither `finalized` nor an erroring `confirmed`. -/
def phase2_continues (j : Json) : Bool :=
  match get_bundle_status j with
  | .error _ => false
  | .ok bs =>
    match bs.confirmation_status with
    | some s =>
      if s = "finalized" then false
      else if s = "confirmed" then
        match check_transaction_error bs with
        | .ok _ => true
        | .error _ => false
      else true
    | none => true

def BundleEv.isPoll1 : BundleEv → Bool
  | .poll1 _ => true
  | _ => false

def BundleEv.isPoll2 : BundleEv → Bool
  | .poll2 _ => true
  | _ => false

theorem check_final_cont_mem (fresps : Nat → Json) (a : Nat) (rest : List Nat)
    (ev : BundleEv)
    (h : ev ∈ BundleEv.poll2 a ::
      (if rest.isEmpty then [] else [BundleEv.sleep 2]) ++
        (check_final_loop fresps rest).2)
    (ih : ev ∈ (check_final_loop fresps rest).2 →
      (∃ b ∈ rest, ev = .poll2 b) ∨ ev = .sleep 2 ∨ ∃ t, ev = .printUrl t) :
    (∃ b ∈ a :: rest, ev = .poll2 b) ∨ ev = .sleep 2 ∨ ∃ t, ev = .printUrl t := by
  rcases List.mem_cons.mp h with h | h
  · exact Or.inl ⟨a, by simp, h⟩
  · rcases List.mem_append.mp h with h | h
    · split at h
      · simp at h
      · simp at h
        exact Or.inr (Or.inl h)
    · rcases ih h with ⟨b, hb, he⟩ | he | he
      · exact Or.inl ⟨b, by simp [hb], he⟩
      · exact Or.inr (Or.inl he)
      · exact Or.inr (Or.inr he)

/-- Every event of a Phase-2 trace is a `poll2` of one of the attempts, a
2-second sleep, or the final `printUrl`. -/
theorem check_final_ev (fresps : Nat → Json) (l : List Nat) (ev : BundleEv)
    (h : ev ∈ (check_final_loop fresps l).2) :
    (∃ a ∈ l, ev = .poll2 a) ∨ ev = .sleep 2 ∨ ∃ t, ev = .printUrl t := by
  induction l with
  | nil => simp [check_final_loop] at h
  | cons a rest ih =>
    simp only [check_final_loop] at h
    split at h
    · simp at h
      exact Or.inl ⟨a, by simp, h⟩
    · split at h
      · split at h
        · split at h
          · simp at h
            exact Or.inl ⟨a, by simp, h⟩
          · exact check_final_cont_mem fresps a rest ev h ih
        · split at h
          · split at h
            · simp at h
              exact Or.inl ⟨a, by simp, h⟩
            · simp at h
              rcases h with h | h
              · exact Or.inl ⟨a, by simp, h⟩
              · exact Or.inr (Or.inr ⟨_, h⟩)
          · exact check_final_cont_mem fresps a rest ev h ih
      · exact check_final_cont_mem fresps a rest ev h ih

/-- A Phase-2 trace holds at most one `poll2` per remaining attempt. -/
theorem check_final_poll2_count (fresps : Nat → Json) (l : List Nat) :
    ((check_final_loop fresps l).2.countP BundleEv.isPoll2) ≤ l.length := by
  induction l with
  | nil => simp [check_final_loop]
  | cons a rest ih =>
    simp only [check_final_loop]
    split
    · simp [List.countP_cons, BundleEv.isPoll2]
    · split
      · split
        · split
          · simp [List.countP_cons, BundleEv.isPoll2]
          · simp only [List.countP_cons, List.countP_append]
            split <;> simp [BundleEv.isPoll2] <;> omega
        · split
          · split
            · simp [List.countP_cons, BundleEv.isPoll2]
            · simp [List.countP_cons, BundleEv.isPoll2]
          · simp only [List.countP_cons, List.countP_append]
            split <;> simp [BundleEv.isPoll2] <;> omega
      · simp only [List.countP_cons, List.countP_append]
        split <;> simp [BundleEv.isPoll2] <;> omega

/-- When every remaining response keeps Phase 2 polling, exhausting the
attempts ends in the confirmation-timeout error. -/
theorem check_final_timeout (fresps : Nat → Json) (l : List Nat)
    (h : ∀ a ∈ l, phase2_continues (fresps a) = true) :
    (check_final_loop fresps l).1 = .error .confirmationTimeout := by
  induction l with
  | nil => rfl
  | cons a rest ih =>
    have ha := h a (by simp)
    have hrest : ∀ b ∈ rest, phase2_continues (fresps b) = true :=
      fun b hb => h b (by simp [hb])
    have hihr := ih hrest
    unfold phase2_continues at ha
    simp only [check_final_loop]
    cases hg : get_bundle_status (fresps a) with
    | error e =>
      rw [hg] at ha
      simp at ha
    | ok bs =>
      rw [hg] at ha
      dsimp only at ha ⊢
      cases hcs : bs.confirmation_status with
      | none =>
        dsimp only
        exact hihr
      | some s =>
        rw [hcs] at ha
        dsimp only at ha ⊢
        by_cases h1 : s = "confirmed"
        · subst h1
          rw [if_neg (by decide), if_pos rfl] at ha
          rw [if_pos rfl]
          cases hce : check_transaction_error bs with
          | error e =>
            rw [hce] at ha
            simp at ha
          | ok u =>
            dsimp only
            exact hihr
        · by_cases h2 : s = "finalized"
          · subst h2
            rw [if_pos rfl] at ha
            exact absurd ha (by simp)
          · rw [if_neg h1, if_neg h2]
            dsimp only
            exact hihr

/-- Every event of a Phase-1 trace is a `poll1` of one of the attempts, a
2-second sleep, the `enter2` transition, or an event of the Phase-2 trace. -/
theorem check_bundle_ev (resps fresps : Nat → Json) (l : List Nat)
    (ev : BundleEv) (h : ev ∈ (check_bundle_loop resps fresps l).2) :
    (∃ a ∈ l, ev = .poll1 a) ∨ ev = .sleep 2 ∨ ev = .enter2 ∨
      ev ∈ (check_final_bundle_status fresps).2 := by
  induction l with
  | nil => simp [check_bundle_loop] at h
  | cons a rest ih =>
    simp only [check_bundle_loop] at h
    split at h
    · simp only [List.mem_cons] at h
      rcases h with h | h | h
      · exact Or.inl ⟨a, by simp, h⟩
      · exact Or.inr (Or.inr (Or.inl h))
      · exact Or.inr (Or.inr (Or.inr h))
    · rcases List.mem_cons.mp h with h | h
      · exact Or.inl ⟨a, by simp, h⟩
      · rcases List.mem_append.mp h with h | h
        · split at h
          · simp at h
          · simp at h
            exact Or.inr (Or.inl h)
        · rcases ih h with ⟨b, hb, he⟩ | he
          · exact Or.inl ⟨b, by simp [hb], he⟩
          · exact Or.inr he

/-- `enter2` appears in a Phase-1 trace only when some polled attempt in the
list answered `"Landed"`. -/
theorem check_bundle_enter2 (resps fresps : Nat → Json) (l : List Nat)
    (h : BundleEv.enter2 ∈ (check_bundle_loop resps fresps l).2) :
    ∃ a ∈ l, extract_status (resps a) = some "Landed" := by
  induction l with
  | nil => simp [check_bundle_loop] at h
  | cons a rest ih =>
    simp only [check_bundle_loop] at h
    split at h
    · exact ⟨a, by simp, by assumption⟩
    · rcases List.mem_cons.mp h with h | h
      · exact absurd h (by simp)
      · rcases List.mem_append.mp h with h | h
        · split at h <;> simp at h
        · obtain ⟨b, hb, hl⟩ := ih h
          exact ⟨b, by simp [hb], hl⟩

/-- Exhausting Phase 1 without ever observing `"Landed"` returns `Ok(())`. -/
theorem check_bundle_exhaust (resps fresps : Nat → Json) (l : List Nat)
    (h : ∀ a ∈ l, extract_status (resps a) ≠ some "Landed") :
    (check_bundle_loop resps fresps l).1 = .ok () := by
  induction l with
  | nil => rfl
  | cons a rest ih =>
    simp only [check_bundle_loop]
    rw [if_neg (h a (by simp))]
    exact ih fun b hb => h b (by simp [hb])

/-- A Phase-2 trace holds no `poll1` and no `enter2` event. -/
theorem check_final_not_phase1 (fresps : Nat → Json) (ev : BundleEv)
    (h : ev ∈ (check_final_bundle_status fresps).2) :
    (∀ a, ev ≠ .poll1 a) ∧ ev ≠ .enter2 := by
  rcases check_final_ev fresps (List.range' 1 10) ev h with ⟨b, -, he⟩ | he | ⟨t, he⟩ <;>
    subst he <;> exact ⟨fun a => by simp, by simp⟩

/-- Phase 1 polls at most once per attempt in the list. -/
theorem check_bundle_poll1_count (resps fresps : Nat → Json) (l : List Nat) :
    ((check_bundle_loop resps fresps l).2.countP BundleEv.isPoll1) ≤
      l.length := by
  induction l with
  | nil => simp [check_bundle_loop]
  | cons a rest ih =>
    simp only [check_bundle_loop]
    split
    · have hz : ((check_final_bundle_status fresps).2.countP
          BundleEv.isPoll1) = 0 := by
        rw [List.countP_eq_zero]
        intro ev hev
        rcases check_final_ev fresps (List.range' 1 10) ev hev with
          ⟨b, -, he⟩ | he | ⟨t, he⟩ <;> subst he <;> simp [BundleEv.isPoll1]
      simp [List.countP_cons, BundleEv.isPoll1, hz]
    · simp only [List.countP_cons, List.countP_append]
      split <;> simp [BundleEv.isPoll1] <;> omega

/-- The whole call makes at most 10 Phase-2 polls. -/
theorem check_bundle_poll2_count (resps fresps : Nat → Json) (l : List Nat) :
    ((check_bundle_loop resps fresps l).2.countP BundleEv.isPoll2) ≤ 10 := by
  induction l with
  | nil => simp [check_bundle_loop]
  | cons a rest ih =>
    simp only [check_bundle_loop]
    split
    · have h2 := check_final_poll2_count fresps (List.range' 1 10)
      simp only [List.length_range'] at h2
      simp only [List.countP_cons, BundleEv.isPoll2, check_final_bundle_status]
      simp
      omega
    · simp only [List.countP_cons, List.countP_append]
      split <;> simp [BundleEv.isPoll2] <;> omega

/-- If some attempt lands and every Phase-2 response keeps polling, the call
ends in the confirmation-timeout error. -/
theorem check_bundle_timeout (resps fresps : Nat → Json) (l : List Nat)
    (hent : ∃ a ∈ l, extract_status (resps a) = some "Landed")
    (hcont : ∀ b, 1 ≤ b → b ≤ 10 → phase2_continues (fresps b) = true) :
    (check_bundle_loop resps fresps l).1 =
      .error .confirmationTimeout := by
  induction l with
  | nil => simp at hent
  | cons a rest ih =>
    simp only [check_bundle_loop]
    by_cases hl : extract_status (resps a) = some "Landed"
    · rw [if_pos hl]
      show (check_final_bundle_status fresps).1 = _
      refine check_final_timeout fresps (List.range' 1 10) ?_
      intro b hb
      rw [List.mem_range'] at hb
      obtain ⟨i, hi, rfl⟩ := hb
      exact hcont _ (by omega) (by omega)
    · rw [if_neg hl]
      rcases hent with ⟨b, hb, hlb⟩
      rcases List.mem_cons.mp hb with rfl | hb
      · exact absurd hlb hl
      · exact ih ⟨b, hb, hlb⟩

theorem unique_middle {α : Type} (x : α) (A B l1 l2 : List α)
    (hA : x ∉ A) (hB : x ∉ B) (h : A ++ x :: B = l1 ++ x :: l2) :
    l2 = B := by
  induction A generalizing l1 with
  | nil =>
    cases l1 with
    | nil => simpa using h.symm
    | cons c l1' =>
      simp only [List.nil_append, List.cons_append, List.cons.injEq] at h
      exact absurd (h.2 ▸ List.mem_append_right l1' (by simp)) hB
  | cons c A' ih =>
    cases l1 with
    | nil =>
      simp only [List.cons_append, List.nil_append, List.cons.injEq] at h
      simp only [List.mem_cons, not_or] at hA
      exact absurd h.1.symm hA.1
    | cons d l1' =>
      simp only [List.cons_append, List.cons.injEq] at h
      simp only [List.mem_cons, not_or] at hA
      exact ih l1' hA.2 h.2

/-- After the `enter2` transition no Phase-1 poll ever occurs again. -/
theorem check_bundle_one_directional (resps fresps : Nat → Json)
    (l : List Nat) (l1 l2 : List BundleEv) (a : Nat)
    (h : (check_bundle_loop resps fresps l).2 = l1 ++ .enter2 :: l2) :
    BundleEv.poll1 a ∉ l2 := by
  induction l generalizing l1 with
  | nil =>
    simp only [check_bundle_loop] at h
    have hlen := congrArg List.length h
    simp only [List.length_nil, List.length_append, List.length_cons] at hlen
    omega
  | cons b rest ih =>
    simp only [check_bundle_loop] at h
    split at h
    · have hB : BundleEv.enter2 ∉ (check_final_bundle_status fresps).2 :=
        fun hmem => (check_final_not_phase1 fresps _ hmem).2 rfl
      have heq : ([BundleEv.poll1 b] ++ BundleEv.enter2 ::
          (check_final_bundle_status fresps).2) = l1 ++ .enter2 :: l2 := by
        simpa using h
      have hl2 := unique_middle BundleEv.enter2 [BundleEv.poll1 b]
        (check_final_bundle_status fresps).2 l1 l2 (by simp) hB heq
      rw [hl2]
      exact fun hmem => (check_final_not_phase1 fresps _ hmem).1 a rfl
    · cases l1 with
      | nil =>
        simp at h
      | cons c l1' =>
        simp only [List.cons_append, List.cons.injEq] at h
        by_cases he : rest.isEmpty
        · rw [if_pos he] at h
          simp only [List.nil_append] at h
          exact ih l1' h.2
        · rw [if_neg he] at h
          cases l1' with
          | nil => simp at h
          | cons d l1'' =>
            simp only [List.cons_append, List.cons.injEq,
              List.singleton_append] at h
            exact ih l1'' h.2.2

/-- C1: the bundle confirmation checker is a one-directional two-phase state
machine — Phase 1 polls at most 10 times with 2-second delays; Phase 2 is
entered only after a Phase-1 response with status `"Landed"`; exhausting
Phase 1 without `"Landed"` returns success; Phase 2 polls at most 10 times,
never returns to Phase 1, and exhausting it without observing
`confirmation_status = "finalized"` is the confirmation-timeout error. -/
theorem bundle_confirmation_state_machine (resps fresps : Nat → Json) :
    ((check_bundle_status resps fresps).2.countP BundleEv.isPoll1 ≤ 10) ∧
    (∀ s, BundleEv.sleep s ∈ (check_bundle_status resps fresps).2 → s = 2) ∧
    (BundleEv.enter2 ∈ (check_bundle_status resps fresps).2 →
      ∃ a, 1 ≤ a ∧ a ≤ 10 ∧ extract_status (resps a) = some "Landed") ∧
    (∀ l1 l2 a, (check_bundle_status resps fresps).2 =
        l1 ++ BundleEv.enter2 :: l2 → BundleEv.poll1 a ∉ l2) ∧
    ((∀ a, 1 ≤ a → a ≤ 10 → extract_status (resps a) ≠ some "Landed") →
      (check_bundle_status resps fresps).1 = .ok () ∧
      BundleEv.enter2 ∉ (check_bundle_status resps fresps).2) ∧
    ((check_bundle_status resps fresps).2.countP BundleEv.isPoll2 ≤ 10) ∧
    (BundleEv.enter2 ∈ (check_bundle_status resps fresps).2 →
      (∀ b, 1 ≤ b → b ≤ 10 → phase2_continues (fresps b) = true) →
      (check_bundle_status resps fresps).1 =
        .error .confirmationTimeout) := by
  have hmem : ∀ a, a ∈ List.range' 1 10 ↔ 1 ≤ a ∧ a ≤ 10 := by
    intro a
    rw [List.mem_range']
    constructor
    · rintro ⟨i, hi, rfl⟩
      omega
    · rintro ⟨h1, h2⟩
      exact ⟨a - 1, by omega, by omega⟩
  refine ⟨?_, ?_, ?_, ?_, ?_, ?_, ?_⟩
  · have := check_bundle_poll1_count resps fresps (List.range' 1 10)
    simpa [check_bundle_status] using this
  · intro s hs
    rcases check_bundle_ev resps fresps (List.range' 1 10)
        (BundleEv.sleep s) hs with
      ⟨b, -, he⟩ | he | he | he
    · exact absurd he (by simp)
    · simpa using he
    · exact absurd he (by simp)
    · rcases check_final_ev fresps (List.range' 1 10) _ he with
        ⟨b, -, he2⟩ | he2 | ⟨t, he2⟩
      · exact absurd he2 (by simp)
      · simpa using he2
      · exact absurd he2 (by simp)
  · intro h
    obtain ⟨a, ha, hl⟩ := check_bundle_enter2 resps fresps (List.range' 1 10) h
    obtain ⟨h1, h2⟩ := (hmem a).mp ha
    exact ⟨a, h1, h2, hl⟩
  · intro l1 l2 a h
    exact check_bundle_one_directional resps fresps (List.range' 1 10) l1 l2 a h
  · intro h
    have hno : ∀ a ∈ List.range' 1 10,
        extract_status (resps a) ≠ some "Landed" := by
      intro a ha
      obtain ⟨h1, h2⟩ := (hmem a).mp ha
      exact h a h1 h2
    refine ⟨check_bundle_exhaust resps fresps (List.range' 1 10) hno, ?_⟩
    intro hent
    obtain ⟨a, ha, hl⟩ := check_bundle_enter2 resps fresps (List.range' 1 10) hent
    exact hno a ha hl
  · exact check_bundle_poll2_count resps fresps (List.range' 1 10)
  · intro hent hcont
    obtain ⟨a, ha, hl⟩ := check_bundle_enter2 resps fresps (List.range' 1 10) hent
    exact check_bundle_timeout resps fresps (List.range' 1 10) ⟨a, ha, hl⟩ hcont

/-- A final-status response whose bundle is `finalized` and whose `err`
field holds a real (non-null) transaction error object of the form the chain
reports (`{"InstructionError": …}`). -/
def instructionErrJson : Json :=
  .obj [("InstructionError", .arr [.num 0, .str "Custom"])]

/-- A complete Phase-2 relay response wrapping `instructionErrJson`. -/
def finalizedErrResp : Json :=
  .obj [("result", .obj [("value", .arr [.obj [
    ("confirmation_status", .str "finalized"),
    ("err", instructionErrJson),
    ("transactions", .arr [.str "tx1"])]])])]

/-- C6: evaluating the Phase-2 checker on a `finalized` response whose `err`
field is the non-null object `{"InstructionError": [0, "Custom"]}` — the code
returns success (`check_transaction_error` only fails when `err["Ok"]` is
non-null), although the claim requires a `TransactionFailed` error for every
non-null `err`; the null-`err` half (success, first transaction id surfaced)
does hold. -/
theorem finalized_with_error_inspection :
    get_bundle_status finalizedErrResp =
      .ok ⟨some "finalized", some instructionErrJson, some ["tx1"]⟩ ∧
    instructionErrJson.isNull = false ∧
    (check_final_bundle_status fun _ => finalizedErrResp) =
      (.ok (), [.poll2 1, .printUrl (some "tx1")]) ∧
    (check_final_bundle_status fun _ => .obj [("result", .obj [("value",
        .arr [.obj [("confirmation_status", .str "finalized"),
          ("err", .null), ("transactions", .arr [.str "tx1"])]])])]) =
      (.ok (), [.poll2 1, .printUrl (some "tx1")]) := by
  refine ⟨rfl, rfl, rfl, rfl⟩

/-! ## Log subscription receive loop (`src/sol_client/client.rs` 161-202)

Inbound websocket frames are modelled at the granularity the loop inspects
them: a text frame carries the result of `serde_json::from_str` (`none` =
the body is not valid JSON, which the `?` operator turns into an early
return), other frame kinds and mid-stream transport errors are opaque.  The
`serde_json::from_value::<Response<RpcLogsResponse>>` step is modelled from
those types' serde shape: required `context.slot` (unsigned integer),
`value.signature` (string) and `value.logs` (array of strings); a missing or
null `err` parses to `None`.  A non-null `err` is kept as-is where serde
would additionally require it to match the `TransactionError` schema — in
both cases such a frame is dropped, which is the observable the claims
speak about. -/

/-- `RpcLogsResponse` — the notification value forwarded on the channel. -/
structure RpcLogsValue where
  signature : String
  err : Option Json
  logs : List String

/-- `u64` reading of a JSON number. -/
def Json.asNat : Json → Option Nat
  | .num n => if 0 ≤ n then some n.toNat else none
  | _ => none

/-- Array-of-strings reading of a JSON value (serde `Vec<String>`). -/
def Json.asStrList : Json → Option (List String)
  | .arr l => l.mapM Json.asStr
  | _ => none

/-- serde parse of `Response<RpcLogsResponse>`. -/
def parse_logs_notif (j : Json) : Option (Nat × RpcLogsValue) := do
  let ctx ← j.get "context"
  let slot ← (ctx.get "slot").bind Json.asNat
  let value ← j.get "value"
  let sig ← (value.get "signature").bind Json.asStr
  let logs ← (value.get "logs").bind Json.asStrList
  let err :=
    match value.get "err" with
    | none => none
    | some .null => none
    | some e => some e
  return (slot, ⟨sig, err, logs⟩)

/-- An inbound frame, as the receive loop distinguishes them. -/
inductive Frame where
  | text (j : Option Json) : Frame
  | nonText : Frame
  | transportErr : Frame

/-- The forwarding decision for one parsed text frame
(src/sol_client/client.rs lines 165-191): require `params`, then `result`,
then a parsable notification, then a null `err`; forward the value. -/
def frame_forward (v : Json) : Option RpcLogsValue :=
  match v.get "params" with
  | some params =>
    match params.get "result" with
    | some result =>
      match parse_logs_notif result with
      | some lv => if lv.2.err.isNone then some lv.2 else none
      | none => none
    | none => none
  | none => none

/-- The receive loop of `start_log_subscribe`
(src/sol_client/client.rs lines 161-202): forwarded values in order, paired
with how the call returns.  A text frame whose body is not valid JSON makes
`serde_json::from_str(&text)?` return the error; non-text frames and
mid-stream transport errors are logged and the loop continues; the stream
ending returns `Ok(())`. -/
def log_loop : List Frame → List RpcLogsValue × Except Unit Unit
  | [] => ([], .ok ())
  | .text none :: _ => ([], .error ())
  | .text (some v) :: rest =>
    match frame_forward v with
    | some lv => (lv :: (log_loop rest).1, (log_loop rest).2)
    | none => log_loop rest
  | .nonText :: rest => log_loop rest
  | .transportErr :: rest => log_loop rest

/-- A frame that aborts the loop: a text frame with an unparsable body. -/
def Frame.isMalformed : Frame → Bool
  | .text none => true
  | _ => false

/-- The value a frame gets forwarded as, when it is forwarded at all. -/
def Frame.goodOf : Frame → Option RpcLogsValue
  | .text (some v) => frame_forward v
  | _ => none

/-- C5 counterexample: a text frame whose body is not valid JSON makes the
call return an error (the claim said every malformed frame is dropped and
the loop continues), while a transport error does *not* end the call (the
claim said the call returns on transport error). -/
theorem malformed_json_frame_counterexample :
    log_loop [Frame.text none] = ([], .error ()) ∧
    log_loop [Frame.transportErr] = ([], .ok ()) :=
  ⟨rfl, rfl⟩

/-- C5 (amended): the loop forwards exactly the frames that parse as JSON
and carry a `params.result` notification with null `err`, in order, up to
the first text frame whose body is not valid JSON; JSON frames of any other
shape, non-text frames and transport errors are dropped and the loop
continues; the call returns `Ok` when the stream ends and an error exactly
when some text frame's body is not valid JSON. -/
theorem log_subscribe_loop_behavior (frames : List Frame) :
    log_loop frames =
      ((frames.takeWhile fun f => !f.isMalformed).filterMap Frame.goodOf,
        if frames.all fun f => !f.isMalformed then .ok () else .error ()) := by
  induction frames with
  | nil => rfl
  | cons f rest ih =>
    cases f with
    | text j =>
      cases j with
      | none =>
        simp [log_loop, List.takeWhile_cons, Frame.isMalformed, List.all_cons]
      | some v =>
        simp only [log_loop, List.takeWhile_cons, Frame.isMalformed,
          Bool.not_false, if_true, List.filterMap_cons, List.all_cons,
          Bool.true_and, Frame.goodOf]
        cases hf : frame_forward v with
        | none => simpa [hf] using ih
        | some lv =>
          rw [ih]
          exact rfl
    | nonText =>
      simp only [log_loop, List.takeWhile_cons, Frame.isMalformed,
        Bool.not_false, if_true, List.filterMap_cons, List.all_cons,
        Bool.true_and, Frame.goodOf]
      exact ih
    | transportErr =>
      simp only [log_loop, List.takeWhile_cons, Frame.isMalformed,
        Bool.not_false, if_true, List.filterMap_cons, List.all_cons,
        Bool.true_and, Frame.goodOf]
      exact ih

/-! ## Tip selection (`src/jito/mod.rs` 54-72, `src/sol_client/client.rs`
310-312) -/

/-- `TipPercentileData` (src/jito/tip_percentile.rs lines 13-22), with the
`f64` percentile fields as exact rationals. -/
structure TipPercentileData where
  time : String
  landed_tips_25th_percentile : ℚ
  landed_tips_50th_percentile : ℚ
  landed_tips_75th_percentile : ℚ
  landed_tips_95th_percentile : ℚ
  landed_tips_99th_percentile : ℚ
  ema_landed_tips_50th_percentile : ℚ

/-- `get_tip_value` (src/jito/mod.rs lines 54-72): select the configured
percentile from the latest snapshot; no snapshot or an unsupported
percentile is an error. -/
def get_tip_value (tips : Option TipPercentileData) (tip_percent : Nat) :
    Except String ℚ :=
  match tips with
  | some data =>
    if tip_percent = 25 then .ok data.landed_tips_25th_percentile
    else if tip_percent = 50 then .ok data.landed_tips_50th_percentile
    else if tip_percent = 75 then .ok data.landed_tips_75th_percentile
    else if tip_percent = 95 then .ok data.landed_tips_95th_percentile
    else if tip_percent = 99 then .ok data.landed_tips_99th_percentile
    else .error "jito: invalid TIP_PERCENTILE value"
  | none => .error "jito: no tip percentile data available"

/-- The tip in SOL attached by `new_signed_and_send`
(src/sol_client/client.rs lines 310-312): `tip = tip.min(0.2)` then
`tip += extra_tip`. -/
def computed_tip_sol (t extra_tip : ℚ) : ℚ :=
  min t 0.2 + extra_tip

/-- C9: for every oracle tip value `t` returned for the configured
percentile and every extra tip `e`, the SOL tip before lamport conversion is
`min t 0.2 + e`; in particular it is exactly `0.2 + e` whenever `t ≥ 0.2`
and exactly `t + e` whenever `t < 0.2`. -/
theorem tip_cap (tips : Option TipPercentileData) (pct : Nat) (t e : ℚ)
    (h : get_tip_value tips pct = .ok t) :
    computed_tip_sol t e = min t 0.2 + e ∧
    (0.2 ≤ t → computed_tip_sol t e = 0.2 + e) ∧
    (t < 0.2 → computed_tip_sol t e = t + e) := by
  refine ⟨rfl, fun h2 => ?_, fun h2 => ?_⟩
  · simp [computed_tip_sol, min_eq_right h2]
  · simp [computed_tip_sol, min_eq_left (le_of_lt h2)]

theorem tip_cap_witness : computed_tip_sol 3 0 = 0.2 + 0 :=
  (tip_cap (some ⟨"", 3, 3, 3, 3, 3, 3⟩) 25 3 0 rfl).2.1 (by norm_num)

end ScanBot
